import Mathlib

/-!
# Verification of the job broker core (`model/job/broker.go`)

A shallow embedding of the job entity, its state machine, the persistence
repair path, the blocking-wait protocol, the listing/pagination queries and
the `Message` wire-format decoding, together with theorems settling the
specification claims about them.

Modelling conventions:
* Go `time.Time` is modelled as `Nat` (instants on a discrete clock, the
  zero value being `0`); `time.Now()` becomes an explicit `now` parameter.
* Go byte slices that the core never inspects (`Message`, `Event`,
  `Payload` on a `Job`) are modelled as `Option String` (`none` = Go `nil`).
* Fallible external calls are modelled by passing their outcome explicitly.
-/

namespace Cozy

/-- Go `time.Time`, as an instant on a discrete clock; the zero value is 0. -/
abbrev Time := Nat

/-- `State` represents the state of a job (a string type in the source). -/
abbrev State := String

/-- Queued state -/
def Queued : State := "queued"

/-- Running state -/
def Running : State := "running"

/-- Done state -/
def Done : State := "done"

/-- Errored state -/
def Errored : State := "errored"

/-- `JobOptions` contains the execution properties of the jobs. -/
structure JobOptions where
  maxExecCount : Int := 0
  timeout : Int := 0
deriving DecidableEq, Repr

/-- `Job` contains all the metadata informations of a Job.
`prefix_` stands for the Go field `Prefix`, `error` for `Error`. -/
structure Job where
  jobID : String := ""
  jobRev : String := ""
  domain : String := ""
  prefix_ : String := ""
  workerType : String := ""
  triggerID : String := ""
  message : Option String := none
  event : Option String := none
  payload : Option String := none
  manual : Bool := false
  debounced : Bool := false
  options : Option JobOptions := none
  state : State := ""
  queuedAt : Time := 0
  startedAt : Time := 0
  finishedAt : Time := 0
  error : String := ""
  forwardLogs : Bool := false
deriving DecidableEq, Repr

/-- `JobRequest` is used to represent a new job request.  The `Trigger`
field (an interface never copied into a `Job`) is omitted. -/
structure JobRequest where
  workerType : String := ""
  triggerID : String := ""
  message : Option String := none
  event : Option String := none
  payload : Option String := none
  manual : Bool := false
  debounced : Bool := false
  forwardLogs : Bool := false
  options : Option JobOptions := none
deriving DecidableEq, Repr

/-- The `prefixer.Prefixer` interface: the two methods become fields. -/
structure Prefixer where
  domainName : String
  dbPrefix : String
deriving DecidableEq, Repr

/-- `NewJob` creates a new Job instance from a job request
(`time.Now()` is the explicit `now` argument). -/
def NewJob (db : Prefixer) (req : JobRequest) (now : Time) : Job :=
  { domain := db.domainName
    prefix_ := db.dbPrefix
    workerType := req.workerType
    triggerID := req.triggerID
    manual := req.manual
    message := req.message
    debounced := req.debounced
    event := req.event
    payload := req.payload
    options := req.options
    forwardLogs := req.forwardLogs
    state := Queued
    queuedAt := now }

/-- `AckConsumed` sets the job infos state to Running (the field updates
performed before the call to `Update`). -/
def Job.AckConsumed (j : Job) (now : Time) : Job :=
  { j with startedAt := now, state := Running }

/-- `Ack` sets the job infos state to Done (the field updates performed
before the call to `Update`): `FinishedAt = now`, `State = Done`,
`Event = nil`, `Payload = nil`. -/
def Job.Ack (j : Job) (now : Time) : Job :=
  { j with finishedAt := now, state := Done, event := none, payload := none }

/-- `Nack` sets the job infos state to Errored and records the error
message (the field updates performed before the call to `Update`). -/
def Job.Nack (j : Job) (errorMessage : String) (now : Time) : Job :=
  { j with finishedAt := now, state := Errored, error := errorMessage,
           event := none, payload := none }

/-- C5: For every tenant and JobRequest, `NewJob` (a total function: it
never fails) returns a Job with `State = Queued`, `QueuedAt` equal to the
call's clock reading, `StartedAt` and `FinishedAt` zero, and all dispatch
fields (WorkerType, TriggerID, Message, Event, Payload, Manual, Debounced,
ForwardLogs, Options) copied from the request. -/
theorem newJob_spec (db : Prefixer) (req : JobRequest) (now : Time) :
    (NewJob db req now).state = Queued ∧
    (NewJob db req now).queuedAt = now ∧
    (NewJob db req now).startedAt = 0 ∧
    (NewJob db req now).finishedAt = 0 ∧
    (NewJob db req now).workerType = req.workerType ∧
    (NewJob db req now).triggerID = req.triggerID ∧
    (NewJob db req now).message = req.message ∧
    (NewJob db req now).event = req.event ∧
    (NewJob db req now).payload = req.payload ∧
    (NewJob db req now).manual = req.manual ∧
    (NewJob db req now).debounced = req.debounced ∧
    (NewJob db req now).forwardLogs = req.forwardLogs ∧
    (NewJob db req now).options = req.options ∧
    (NewJob db req now).domain = db.domainName ∧
    (NewJob db req now).prefix_ = db.dbPrefix := by
  refine ⟨rfl, rfl, rfl, rfl, rfl, rfl, rfl, rfl, rfl, rfl, rfl, rfl, rfl, rfl, rfl⟩

/-- C2: For every Job, `Ack` sets `State = Done` and `Nack msg` sets
`State = Errored` with `Error = msg`; both set `FinishedAt` to the current
time and clear `Event` and `Payload` (to Go `nil`) before persisting, so a
job reaching a terminal state never carries Event or Payload data. -/
theorem ack_nack_spec (j : Job) (msg : String) (now : Time) :
    (j.Ack now).state = Done ∧
    (j.Ack now).finishedAt = now ∧
    (j.Ack now).event = none ∧
    (j.Ack now).payload = none ∧
    (j.Nack msg now).state = Errored ∧
    (j.Nack msg now).error = msg ∧
    (j.Nack msg now).finishedAt = now ∧
    (j.Nack msg now).event = none ∧
    (j.Nack msg now).payload = none := by
  refine ⟨rfl, rfl, rfl, rfl, rfl, rfl, rfl, rfl, rfl⟩

/-! ## Persistence: `Update` and the missing-document repair path (C3)

The source calls `couchdb.UpdateDoc` / `couchdb.CreateDoc` (part of this
repository but outside the studied sources); their outcomes are passed
explicitly, following the spec's store contract. -/

/-- Modelled from the spec: an error reported by the document store
(`pkg/couchdb`); the spec's error taxonomy distinguishes NotFound
(document or collection missing) from the other, e.g. transient, errors
(`couchdb.IsNotFoundError` is the `isNotFound` projection). -/
inductive CouchError where
  | notFound
  | other (msg : String)
deriving DecidableEq, Repr

/-- `couchdb.IsNotFoundError`. -/
def CouchError.isNotFound : CouchError → Bool
  | .notFound => true
  | .other _ => false

/-- Modelled from the spec: outcome of a `couchdb.UpdateDoc` call — on
success the store assigns a new revision to the document. -/
inductive UpdateOutcome where
  | ok (rev : String)
  | err (e : CouchError)
deriving DecidableEq, Repr

/-- Modelled from the spec: outcome of a `couchdb.CreateDoc` call — on
success the store assigns a fresh identity (id and revision). -/
inductive CreateOutcome where
  | ok (id rev : String)
  | err (e : CouchError)
deriving DecidableEq, Repr

/-- `Create` creates the job in couchdb (`couchdb.CreateDoc(j, j)`; on
success the store sets the job's id and rev). -/
def Job.Create (j : Job) (create : CreateOutcome) : Except CouchError Job :=
  match create with
  | .ok id rev => .ok { j with jobID := id, jobRev := rev }
  | .err e => .error e

/-- `Update` updates the job in couchdb.  When a job for an import runs,
the database for io.cozy.jobs is deleted, and the job is recreated, not
just updated: on a not-found error the id and rev are reset (`SetID ""`,
`SetRev ""`) and `Create` is called; any other error is returned. -/
def Job.Update (j : Job) (upd : UpdateOutcome) (create : CreateOutcome) :
    Except CouchError Job :=
  match upd with
  | .ok rev => .ok { j with jobRev := rev }
  | .err e =>
    if e.isNotFound then
      Job.Create { j with jobID := "", jobRev := "" } create
    else
      .error e

/-- C3: whenever `Update`'s write fails with a not-found error, the job is
re-created as a new document with id and rev reset so the store assigns a
fresh identity, and the caller does not receive the not-found error (when
the re-creation succeeds, the caller receives the re-created job); every
other `Update` error is returned to the caller unchanged, with no
automatic retry. -/
theorem update_spec (j : Job) (upd : UpdateOutcome) (create : CreateOutcome) :
    (upd = .err .notFound →
      Job.Update j upd create = Job.Create { j with jobID := "", jobRev := "" } create ∧
      (∀ id rev, create = .ok id rev →
        Job.Update j upd create = .ok { j with jobID := id, jobRev := rev })) ∧
    (∀ e, e.isNotFound = false →
      Job.Update j (.err e) create = .error e) := by
  constructor
  · rintro rfl
    refine ⟨rfl, ?_⟩
    rintro id rev rfl
    rfl
  · intro e he
    simp [Job.Update, he]

/-- Witness for C3 at a concrete input: the not-found branch recreates the
job with fresh identity, the other branch propagates the error. -/
theorem update_spec_witness :
    ((UpdateOutcome.err .notFound) = .err .notFound →
      Job.Update { jobID := "old", jobRev := "1-r" } (.err .notFound) (.ok "new" "1-n")
        = Job.Create { ({ jobID := "old", jobRev := "1-r" } : Job) with jobID := "", jobRev := "" }
            (.ok "new" "1-n") ∧
      (∀ id rev, (CreateOutcome.ok "new" "1-n") = .ok id rev →
        Job.Update { jobID := "old", jobRev := "1-r" } (.err .notFound) (.ok "new" "1-n")
          = .ok { ({ jobID := "old", jobRev := "1-r" } : Job) with jobID := id, jobRev := rev })) ∧
    (∀ e, e.isNotFound = false →
      Job.Update { jobID := "old", jobRev := "1-r" } (.err e) (.ok "new" "1-n") = .error e) :=
  update_spec { jobID := "old", jobRev := "1-r" } (.err .notFound) (.ok "new" "1-n")

/-! ## Listing queries: `FilterByWorkerAndState`, `GetLastsJobs` (C7, C8, C10) -/

/-- The maximum limit of how much jobs will be returned for each job state
(the Go map literal `defaultMaxLimits`; a Go map lookup at a missing key
yields the zero value 0). -/
def defaultMaxLimits (s : State) : Int :=
  if s = Queued ∨ s = Running ∨ s = Done ∨ s = Errored then 50 else 0

/-- The loop condition of `FilterByWorkerAndState`:
`j.WorkerType == workerType && j.State == state`. -/
def matchesWS (workerType : String) (state : State) (j : Job) : Bool :=
  j.workerType == workerType && j.state == state

/-- The `for … range jobs` loop of `FilterByWorkerAndState`, with the
`returned` accumulator made explicit.  The length check against `limit`
happens after each append, exactly as in the source. -/
def fbwsGo (workerType : String) (state : State) (limit : Int) :
    List Job → List Job → List Job
  | [], returned => returned
  | j :: rest, returned =>
    if matchesWS workerType state j then
      if ((returned ++ [j]).length : Int) = limit then returned ++ [j]
      else fbwsGo workerType state limit rest (returned ++ [j])
    else fbwsGo workerType state limit rest returned

/-- `FilterByWorkerAndState` filters a job slice by its workerType and
State (`limit` is a Go `int`, hence `Int`). -/
def FilterByWorkerAndState (jobs : List Job) (workerType : String)
    (state : State) (limit : Int) : List Job :=
  fbwsGo workerType state limit jobs []

/-- With a positive limit, the accumulator loop produces the first
`limit - |returned|` matches appended to the accumulator. -/
theorem fbwsGo_pos (workerType : String) (state : State) (limit : Int)
    (l : List Job) : ∀ returned : List Job, (returned.length : Int) < limit →
    fbwsGo workerType state limit l returned =
      returned ++ (l.filter (matchesWS workerType state)).take (limit - returned.length).toNat := by
  induction l with
  | nil => intro returned _; simp [fbwsGo]
  | cons j rest ih =>
    intro returned hlen
    by_cases hm : matchesWS workerType state j
    · rw [fbwsGo]
      simp only [hm, if_true]
      by_cases hstop : ((returned ++ [j]).length : Int) = limit
      · simp only [hstop, if_true]
        have h1 : (limit - returned.length).toNat = 1 := by
          simp [List.length_append] at hstop; omega
        simp [List.filter_cons, hm, h1]
      · simp only [hstop, if_false]
        have hlen' : (((returned ++ [j]).length : Int)) < limit := by
          simp only [List.length_append, List.length_cons, List.length_nil] at hstop ⊢
          push_cast at hstop ⊢
          omega
        rw [ih (returned ++ [j]) hlen']
        have hk : (limit - returned.length).toNat = (limit - (returned ++ [j]).length).toNat + 1 := by
          simp only [List.length_append, List.length_cons, List.length_nil] at hstop ⊢
          push_cast at hstop hlen ⊢
          omega
        simp [List.filter_cons, hm, hk, List.take_succ_cons]
    · rw [fbwsGo]
      simp only [hm, if_false, Bool.false_eq_true]
      rw [ih returned hlen]
      simp [List.filter_cons, hm]

/-- With a non-positive limit, the stop condition can never fire (the
accumulator length is compared for equality after growing past it), so
every match in the input is returned. -/
theorem fbwsGo_nonpos (workerType : String) (state : State) (limit : Int)
    (hl : limit ≤ 0) (l : List Job) : ∀ returned : List Job,
    fbwsGo workerType state limit l returned =
      returned ++ l.filter (matchesWS workerType state) := by
  induction l with
  | nil => intro returned; simp [fbwsGo]
  | cons j rest ih =>
    intro returned
    by_cases hm : matchesWS workerType state j
    · rw [fbwsGo]
      have hstop : ¬ (((returned ++ [j]).length : Int) = limit) := by
        simp only [List.length_append, List.length_cons, List.length_nil]
        push_cast
        omega
      simp only [hm, if_true, hstop, if_false]
      rw [ih (returned ++ [j])]
      simp [List.filter_cons, hm]
    · rw [fbwsGo]
      simp only [hm, if_false, Bool.false_eq_true]
      rw [ih returned]
      simp [List.filter_cons, hm]

/-- Characterization of `FilterByWorkerAndState` for positive limits. -/
theorem filterByWorkerAndState_eq_take (jobs : List Job) (workerType : String)
    (state : State) (limit : Int) (hl : 1 ≤ limit) :
    FilterByWorkerAndState jobs workerType state limit =
      (jobs.filter (matchesWS workerType state)).take limit.toNat := by
  rw [FilterByWorkerAndState, fbwsGo_pos workerType state limit jobs [] (by simpa using hl)]
  simp

/-- Every returned job matches the requested worker type and state. -/
theorem filterByWorkerAndState_sound (jobs : List Job) (workerType : String)
    (state : State) (limit : Int) :
    ∀ j ∈ FilterByWorkerAndState jobs workerType state limit,
      j.workerType = workerType ∧ j.state = state := by
  intro j hj
  have hmem : j ∈ jobs.filter (matchesWS workerType state) := by
    rcases le_or_lt limit 0 with hl | hl
    · rw [FilterByWorkerAndState, fbwsGo_nonpos workerType state limit hl jobs []] at hj
      simpa using hj
    · rw [filterByWorkerAndState_eq_take jobs workerType state limit hl] at hj
      exact List.mem_of_mem_take hj
  have := (List.mem_filter.mp hmem).2
  simp only [matchesWS, Bool.and_eq_true, beq_iff_eq] at this
  exact this

/-- With a positive limit, at most `limit` jobs are returned. -/
theorem filterByWorkerAndState_length_le (jobs : List Job) (workerType : String)
    (state : State) (limit : Int) (hl : 1 ≤ limit) :
    (FilterByWorkerAndState jobs workerType state limit).length ≤ limit.toNat := by
  rw [filterByWorkerAndState_eq_take jobs workerType state limit hl]
  simp

/-- C8 counterexample: with limit `L = 0` the stop test `len == limit` is
checked only after the list has grown to length 1, so it never fires and a
matching job is returned — more than `L` jobs. -/
theorem filterByWorkerAndState_limit_zero_cex :
    FilterByWorkerAndState [{ workerType := "konnector", state := "queued" }] "konnector" "queued" 0
        = [{ workerType := "konnector", state := "queued" }] ∧
    ¬ ((FilterByWorkerAndState [{ workerType := "konnector", state := "queued" }]
        "konnector" "queued" 0).length : Int) ≤ 0 := by
  constructor
  · rfl
  · decide

/-- C8 (amended to positive limits): for every input list, worker type,
state, and limit `L ≥ 1`, `FilterByWorkerAndState` returns the first `L`
matches in input order (hence at most `L` jobs, all matching both
criteria), and it stops scanning the input as soon as `L` matches have
been collected: any extension of the input past the `L`-th match leaves
the result unchanged.  (For `L ≤ 0` the stop test never fires and all
matches are returned.) -/
theorem filterByWorkerAndState_spec (jobs : List Job) (workerType : String)
    (state : State) (limit : Int) (hl : 1 ≤ limit) :
    FilterByWorkerAndState jobs workerType state limit =
      (jobs.filter (matchesWS workerType state)).take limit.toNat ∧
    ((FilterByWorkerAndState jobs workerType state limit).length : Int) ≤ limit ∧
    (∀ j ∈ FilterByWorkerAndState jobs workerType state limit,
      j.workerType = workerType ∧ j.state = state) ∧
    (∀ rest : List Job, limit.toNat ≤ (jobs.filter (matchesWS workerType state)).length →
      FilterByWorkerAndState (jobs ++ rest) workerType state limit =
        FilterByWorkerAndState jobs workerType state limit) := by
  refine ⟨filterByWorkerAndState_eq_take jobs workerType state limit hl, ?_, ?_, ?_⟩
  · have := filterByWorkerAndState_length_le jobs workerType state limit hl
    omega
  · exact filterByWorkerAndState_sound jobs workerType state limit
  · intro rest hrest
    rw [filterByWorkerAndState_eq_take _ workerType state limit hl,
        filterByWorkerAndState_eq_take _ workerType state limit hl,
        List.filter_append, List.take_append_of_le_length hrest]

/-- Witness for C8 at a concrete input (limit 1 over a two-job list whose
both elements match: only the first is returned). -/
theorem filterByWorkerAndState_spec_witness :
    FilterByWorkerAndState [{ workerType := "w", state := "queued", queuedAt := 1 },
        { workerType := "w", state := "queued", queuedAt := 2 }] "w" "queued" 1 =
      (([{ workerType := "w", state := "queued", queuedAt := 1 },
        { workerType := "w", state := "queued", queuedAt := 2 }] : List Job).filter
          (matchesWS "w" "queued")).take (1 : Int).toNat ∧
    ((FilterByWorkerAndState [{ workerType := "w", state := "queued", queuedAt := 1 },
        { workerType := "w", state := "queued", queuedAt := 2 }] "w" "queued" 1).length : Int) ≤ 1 ∧
    (∀ j ∈ FilterByWorkerAndState [{ workerType := "w", state := "queued", queuedAt := 1 },
        { workerType := "w", state := "queued", queuedAt := 2 }] "w" "queued" 1,
      j.workerType = "w" ∧ j.state = "queued") ∧
    (∀ rest : List Job,
      (1 : Int).toNat ≤ (([{ workerType := "w", state := "queued", queuedAt := 1 },
        { workerType := "w", state := "queued", queuedAt := 2 }] : List Job).filter
          (matchesWS "w" "queued")).length →
      FilterByWorkerAndState ([{ workerType := "w", state := "queued", queuedAt := 1 },
        { workerType := "w", state := "queued", queuedAt := 2 }] ++ rest) "w" "queued" 1 =
        FilterByWorkerAndState [{ workerType := "w", state := "queued", queuedAt := 1 },
          { workerType := "w", state := "queued", queuedAt := 2 }] "w" "queued" 1) :=
  filterByWorkerAndState_spec
    [{ workerType := "w", state := "queued", queuedAt := 1 },
     { workerType := "w", state := "queued", queuedAt := 2 }] "w" "queued" 1 (by norm_num)

/-- The comparison used by `GetLastsJobs`'s `sort.Slice` call:
`jobs[i].QueuedAt.Before(jobs[j].QueuedAt)`.  We work with the reflexive
closure `≤` of `Before`; a sorting algorithm consistent with it produces a
sorted permutation, which is how the in-place `sort.Slice` is modelled. -/
def byQueuedAt (a b : Job) : Prop := a.queuedAt ≤ b.queuedAt

instance : DecidableRel byQueuedAt := fun a b => Nat.decLe a.queuedAt b.queuedAt

instance : IsTotal Job byQueuedAt := ⟨fun a b => Nat.le_total a.queuedAt b.queuedAt⟩

instance : IsTrans Job byQueuedAt := ⟨fun _ _ _ => Nat.le_trans⟩

/-- The `sort.Slice(jobs, …QueuedAt.Before…)` call of `GetLastsJobs`,
modelled as a functional sort (the source sorts the caller's slice in
place; the sorted list is the post-call state of that slice). -/
def sortJobs (jobs : List Job) : List Job :=
  List.insertionSort byQueuedAt jobs

/-- `GetLastsJobs` returns the N lasts job of each state for an
instance/worker type pair.  The pair returned is
(function result, post-call state of the caller's `jobs` slice) — the
second component records the in-place `sort.Slice` side effect.
The Go version also returns an error which is always `nil`. -/
def GetLastsJobsFull (jobs : List Job) (workerType : String) :
    List Job × List Job :=
  let sorted := sortJobs jobs
  let result := [Queued, Running, Done, Errored].foldl
    (fun result state =>
      result ++ FilterByWorkerAndState sorted workerType state (defaultMaxLimits state)) []
  (result, sorted)

/-- The result component of `GetLastsJobsFull`. -/
def GetLastsJobs (jobs : List Job) (workerType : String) : List Job :=
  (GetLastsJobsFull jobs workerType).1

theorem defaultMaxLimits_queued : defaultMaxLimits Queued = 50 := by decide

theorem defaultMaxLimits_running : defaultMaxLimits Running = 50 := by decide

theorem defaultMaxLimits_done : defaultMaxLimits Done = 50 := by decide

theorem defaultMaxLimits_errored : defaultMaxLimits Errored = 50 := by decide

/-- A state-filtered segment of the result: at most 50 jobs when the
filter state matches the segment's state, none otherwise. -/
theorem segment_filter_bound (l : List Job) (workerType : String) (s st : State) :
    ((FilterByWorkerAndState l workerType s 50).filter
        (fun j => j.state == st)).length ≤ if st = s then 50 else 0 := by
  by_cases h : st = s
  · subst h
    rw [if_pos rfl]
    calc ((FilterByWorkerAndState l workerType st 50).filter
            (fun j => j.state == st)).length
        ≤ (FilterByWorkerAndState l workerType st 50).length :=
          List.length_filter_le _ _
      _ ≤ (50 : Int).toNat :=
          filterByWorkerAndState_length_le l workerType st 50 (by norm_num)
      _ = 50 := rfl
  · rw [if_neg h]
    have hnil : (FilterByWorkerAndState l workerType s 50).filter
        (fun j => j.state == st) = [] := by
      rw [List.filter_eq_nil_iff]
      intro j hj
      have hs := (filterByWorkerAndState_sound l workerType s 50 j hj).2
      simp [hs, Ne.symm h]
    simp [hnil]

/-- C7: `GetLastsJobs` sorts the input ascending by `QueuedAt` (the sorted
list is a sorted permutation of the input) and then, for each state in the
fixed order Queued, Running, Done, Errored, takes up to the per-state cap
of 50 matching jobs for the worker type, concatenating the groups in that
state order; every returned job is for the requested worker type and the
result never holds more than 50 jobs of any one state. -/
theorem getLastsJobs_spec (jobs : List Job) (workerType : String) :
    GetLastsJobs jobs workerType =
      FilterByWorkerAndState (sortJobs jobs) workerType Queued 50 ++
      FilterByWorkerAndState (sortJobs jobs) workerType Running 50 ++
      FilterByWorkerAndState (sortJobs jobs) workerType Done 50 ++
      FilterByWorkerAndState (sortJobs jobs) workerType Errored 50 ∧
    (sortJobs jobs).Sorted byQueuedAt ∧
    (sortJobs jobs).Perm jobs ∧
    (∀ j ∈ GetLastsJobs jobs workerType, j.workerType = workerType) ∧
    ∀ st : State,
      ((GetLastsJobs jobs workerType).filter (fun j => j.state == st)).length ≤ 50 := by
  have heq : GetLastsJobs jobs workerType =
      FilterByWorkerAndState (sortJobs jobs) workerType Queued 50 ++
      FilterByWorkerAndState (sortJobs jobs) workerType Running 50 ++
      FilterByWorkerAndState (sortJobs jobs) workerType Done 50 ++
      FilterByWorkerAndState (sortJobs jobs) workerType Errored 50 := by
    simp [GetLastsJobs, GetLastsJobsFull, defaultMaxLimits_queued,
      defaultMaxLimits_running, defaultMaxLimits_done, defaultMaxLimits_errored,
      List.append_assoc]
  refine ⟨heq, List.sorted_insertionSort byQueuedAt jobs,
    List.perm_insertionSort byQueuedAt jobs, ?_, ?_⟩
  · intro j hj
    rw [heq] at hj
    simp only [List.mem_append] at hj
    rcases hj with ((hj | hj) | hj) | hj
    · exact (filterByWorkerAndState_sound _ workerType Queued 50 j hj).1
    · exact (filterByWorkerAndState_sound _ workerType Running 50 j hj).1
    · exact (filterByWorkerAndState_sound _ workerType Done 50 j hj).1
    · exact (filterByWorkerAndState_sound _ workerType Errored 50 j hj).1
  · intro st
    rw [heq]
    simp only [List.filter_append, List.length_append]
    have hQ := segment_filter_bound (sortJobs jobs) workerType Queued st
    have hR := segment_filter_bound (sortJobs jobs) workerType Running st
    have hD := segment_filter_bound (sortJobs jobs) workerType Done st
    have hE := segment_filter_bound (sortJobs jobs) workerType Errored st
    by_cases h1 : st = Queued
    · rw [if_pos h1] at hQ
      rw [if_neg (h1 ▸ (by decide : ¬(Queued = Running)))] at hR
      rw [if_neg (h1 ▸ (by decide : ¬(Queued = Done)))] at hD
      rw [if_neg (h1 ▸ (by decide : ¬(Queued = Errored)))] at hE
      omega
    · rw [if_neg h1] at hQ
      by_cases h2 : st = Running
      · rw [if_pos h2] at hR
        rw [if_neg (h2 ▸ (by decide : ¬(Running = Done)))] at hD
        rw [if_neg (h2 ▸ (by decide : ¬(Running = Errored)))] at hE
        omega
      · rw [if_neg h2] at hR
        by_cases h3 : st = Done
        · rw [if_pos h3] at hD
          rw [if_neg (h3 ▸ (by decide : ¬(Done = Errored)))] at hE
          omega
        · rw [if_neg h3] at hD
          by_cases h4 : st = Errored
          · rw [if_pos h4] at hE
            omega
          · rw [if_neg h4] at hE
            omega

/-- C10: `GetLastsJobs` mutates its input: the caller's slice is left
sorted ascending by `QueuedAt` by the in-place sort, so whenever the input
was not already sorted by `QueuedAt`, the input slice is changed. -/
theorem getLastsJobs_mutates_input (jobs : List Job) (workerType : String)
    (h : ¬ jobs.Sorted byQueuedAt) :
    (GetLastsJobsFull jobs workerType).2 = sortJobs jobs ∧
    (GetLastsJobsFull jobs workerType).2 ≠ jobs := by
  refine ⟨rfl, ?_⟩
  intro heq
  have hsorted : (GetLastsJobsFull jobs workerType).2.Sorted byQueuedAt :=
    List.sorted_insertionSort byQueuedAt jobs
  rw [heq] at hsorted
  exact h hsorted

/-- Witness for C10 at a concrete unsorted input: the post-call state of
the caller's slice differs from the original. -/
theorem getLastsJobs_mutates_input_witness :
    (GetLastsJobsFull [{ queuedAt := 2 }, { queuedAt := 1 }] "w").2 =
      sortJobs [{ queuedAt := 2 }, { queuedAt := 1 }] ∧
    (GetLastsJobsFull [{ queuedAt := 2 }, { queuedAt := 1 }] "w").2 ≠
      [{ queuedAt := 2 }, { queuedAt := 1 }] :=
  getLastsJobs_mutates_input [{ queuedAt := 2 }, { queuedAt := 1 }] "w"
    (by decide)

/-! ## `GetAllJobs`: full-history identity-ordered pagination (C1) -/

/-- Modelled from the spec: `couchdb.GetAllDocs` with an `AllDocsRequest`
(`pkg/couchdb` is outside the studied sources) — identity-ordered
pagination over the tenant's job collection.  `store` is the collection
content in ascending `_id` order; the start key is inclusive and at most
`limit` documents are returned.  An empty start key (the Go zero value of
`AllDocsRequest.StartKey`) precedes every id, so the first page starts at
the beginning. -/
def GetAllDocs (store : List Job) (startkey : String) (limit : Nat) : List Job :=
  (store.filter (fun j => startkey ≤ j.jobID)).take limit

/-- The `for remainingJobs` loop of `GetAllJobs`, with the loop variables
(`startkey`, `finalJobs`) explicit and a fuel argument for termination
(`none` means the fuel ran out, which the correctness theorem rules out).
Each lap fetches a page of at most 10001 documents, pops its last element
as the next start key (`lastJob, jobs = jobs[len-1], jobs[:len-1]`),
appends the rest to `finalJobs`, and when only the start key itself was
fetched appends it and stops. -/
def getAllJobsLoop (store : List Job) : Nat → String → List Job → Option (List Job)
  | 0, _, _ => none
  | fuel + 1, startkey, finalJobs =>
    match (GetAllDocs store startkey 10001).getLast? with
    | none => some finalJobs
    | some lastJob =>
      if (GetAllDocs store startkey 10001).dropLast.isEmpty then
        some ((finalJobs ++ (GetAllDocs store startkey 10001).dropLast) ++ [lastJob])
      else
        getAllJobsLoop store fuel lastJob.jobID
          (finalJobs ++ (GetAllDocs store startkey 10001).dropLast)

/-- `GetAllJobs` returns the list of all the jobs on the given instance
(the fuel `store.length + 2` always suffices). -/
def GetAllJobs (store : List Job) : Option (List Job) :=
  getAllJobsLoop store (store.length + 2) "" []

/-- On an id-sorted store, filtering at the first id of a suffix returns
exactly that suffix (the model of an inclusive-start-key fetch). -/
theorem filter_ge_of_sorted (l : List Job) (x : Job) (r : List Job)
    (hp : (l ++ x :: r).Pairwise (fun a b => a.jobID < b.jobID)) :
    (l ++ x :: r).filter (fun j => x.jobID ≤ j.jobID) = x :: r := by
  rw [List.filter_append]
  have hl : l.filter (fun j => x.jobID ≤ j.jobID) = [] := by
    rw [List.filter_eq_nil_iff]
    intro a ha
    have hax : a.jobID < x.jobID :=
      (List.pairwise_append.mp hp).2.2 a ha x (List.mem_cons_self x r)
    simp only [decide_eq_true_eq]
    exact not_le.mpr hax
  have hr : (x :: r).filter (fun j => x.jobID ≤ j.jobID) = x :: r := by
    rw [List.filter_eq_self]
    intro a ha
    rcases List.mem_cons.mp ha with rfl | ha
    · simp
    · have hx : x.jobID < a.jobID :=
        (List.rel_of_pairwise_cons (List.pairwise_append.mp hp).2.1) ha
      simp only [decide_eq_true_eq]
      exact le_of_lt hx
  rw [hl, hr, List.nil_append]

/-- Loop invariant for `getAllJobsLoop`: when the store splits as
`done ++ rest` with `done` already accumulated and the current start key
selecting exactly `rest`, the loop returns the whole store. -/
theorem getAllJobsLoop_correct (store : List Job)
    (hp : store.Pairwise (fun a b => a.jobID < b.jobID)) :
    ∀ (fuel : Nat) (done rest : List Job) (startkey : String),
      store = done ++ rest →
      store.filter (fun j => startkey ≤ j.jobID) = rest →
      rest ≠ [] →
      rest.length ≤ fuel →
      getAllJobsLoop store fuel startkey done = some (done ++ rest) := by
  intro fuel
  induction fuel with
  | zero =>
    intro done rest sk hsplit hfilter hne hlen
    have := List.length_pos.mpr hne
    omega
  | succ fuel ih =>
    intro done rest sk hsplit hfilter hne hlen
    have hpage : GetAllDocs store sk 10001 = rest.take 10001 := by
      rw [GetAllDocs, hfilter]
    by_cases hsize : rest.length ≤ 10001
    · -- the fetched page is the whole remaining suffix
      have hpage' : GetAllDocs store sk 10001 = rest := by
        rw [hpage, List.take_of_length_le hsize]
      obtain ⟨x, t, rfl⟩ : ∃ x t, rest = x :: t := by
        cases rest with
        | nil => exact absurd rfl hne
        | cons x t => exact ⟨x, t, rfl⟩
      rcases eq_or_ne t [] with rfl | ht
      · -- last lap: the page contains exactly the start key's document
        rw [getAllJobsLoop]
        simp [hpage']
      · -- pop the last element and do one more lap on it
        have hlast : ((x :: t) : List Job).getLast? =
            some ((x :: t).getLast (List.cons_ne_nil x t)) :=
          List.getLast?_eq_getLast _ _
        have hdlne : ((x :: t) : List Job).dropLast ≠ [] := by
          have h1 : 1 ≤ t.length := List.length_pos.mpr ht
          have h2 : ((x :: t) : List Job).dropLast.length = t.length := by
            simp [List.length_dropLast]
          intro hcontra
          rw [hcontra] at h2
          simp at h2
          omega
        have hrejoin : (done ++ ((x :: t) : List Job).dropLast) ++
            [(x :: t).getLast (List.cons_ne_nil x t)] = done ++ x :: t := by
          rw [List.append_assoc, List.dropLast_append_getLast]
        rw [getAllJobsLoop]
        simp only [hpage', hlast]
        rw [if_neg (by simpa [List.isEmpty_iff] using hdlne)]
        rw [← hrejoin]
        apply ih (done ++ ((x :: t) : List Job).dropLast)
            [(x :: t).getLast (List.cons_ne_nil x t)]
        · rw [← hrejoin] at hsplit
          simpa [List.append_assoc] using hsplit
        · have hsp : store = (done ++ ((x :: t) : List Job).dropLast) ++
              ((x :: t).getLast (List.cons_ne_nil x t)) :: [] := by
            rw [hsplit, ← hrejoin]
          rw [hsp]
          exact filter_ge_of_sorted _ _ _ (hsp ▸ hp)
        · simp
        · have h1 : 1 ≤ t.length := List.length_pos.mpr ht
          simp only [List.length_cons] at hlen
          simp only [List.length_singleton]
          omega
    · -- a full page of 10001 documents, more remaining after it
      push_neg at hsize
      have h10000 : 10000 < rest.length := by omega
      obtain ⟨y, r2, hy⟩ : ∃ y r2, rest.drop 10000 = y :: r2 := by
        cases hdrop : rest.drop 10000 with
        | nil =>
          have := List.length_drop 10000 rest
          rw [hdrop] at this
          simp at this
          omega
        | cons y r2 => exact ⟨y, r2, rfl⟩
      have htake : rest.take 10001 = rest.take 10000 ++ [y] := by
        have hta : rest.take (10000 + 1) =
            rest.take 10000 ++ (rest.drop 10000).take 1 := List.take_add rest 10000 1
        rw [show (10001 : Nat) = 10000 + 1 from rfl, hta, hy]
        rfl
      have hpage' : GetAllDocs store sk 10001 = rest.take 10000 ++ [y] := by
        rw [hpage, htake]
      have htkne : rest.take 10000 ≠ [] := by
        intro hcontra
        have hlen0 := congrArg List.length hcontra
        rw [List.length_take] at hlen0
        simp only [List.length_nil] at hlen0
        omega
      have hrejoin : (done ++ rest.take 10000) ++ y :: r2 = done ++ rest := by
        rw [List.append_assoc, ← hy, List.take_append_drop]
      rw [getAllJobsLoop]
      simp only [hpage', List.getLast?_concat, List.dropLast_concat]
      rw [if_neg (by simpa [List.isEmpty_iff] using htkne)]
      have hgoal : done ++ rest = (done ++ rest.take 10000) ++ y :: r2 := hrejoin.symm
      rw [hgoal]
      apply ih (done ++ rest.take 10000) (y :: r2)
      · rw [hsplit, ← hrejoin]
      · have hsp : store = (done ++ rest.take 10000) ++ y :: r2 := by
          rw [hsplit, ← hrejoin]
        rw [hsp]
        exact filter_ge_of_sorted _ _ _ (hsp ▸ hp)
      · simp
      · have hld : (rest.drop 10000).length = rest.length - 10000 :=
          List.length_drop 10000 rest
        rw [hy] at hld
        simp only [List.length_cons] at hld ⊢
        omega

/-- C1: over a store of N job documents in ascending id order (with
distinct ids), `GetAllJobs` returns exactly those N documents, each
exactly once, in order, for every N — the loop never runs out of fuel and
visits each document once, including the boundary lap where the last page
contains exactly the cursor's prior key. -/
theorem getAllJobs_spec (store : List Job)
    (hp : store.Pairwise (fun a b => a.jobID < b.jobID)) :
    GetAllJobs store = some store := by
  cases store with
  | nil => rfl
  | cons x t =>
    have hfil : ((x :: t) : List Job).filter (fun j => ("" : String) ≤ j.jobID) = x :: t := by
      rw [List.filter_eq_self]
      intro a _
      simp only [decide_eq_true_eq]
      rw [String.le_iff_toList_le]
      simp
    have h := getAllJobsLoop_correct (x :: t) hp ((x :: t).length + 2) [] (x :: t) ""
      (by simp) hfil (List.cons_ne_nil x t) (by omega)
    simpa [GetAllJobs] using h

/-- Witness for C1 at a concrete three-document store. -/
theorem getAllJobs_spec_witness :
    GetAllJobs [{ jobID := "a" }, { jobID := "b" }, { jobID := "c" }] =
      some [{ jobID := "a" }, { jobID := "b" }, { jobID := "c" }] := by
  have hab : ("a" : String) < "b" := by rw [String.lt_iff_toList_lt]; decide
  have hac : ("a" : String) < "c" := by rw [String.lt_iff_toList_lt]; decide
  have hbc : ("b" : String) < "c" := by rw [String.lt_iff_toList_lt]; decide
  apply getAllJobs_spec [{ jobID := "a" }, { jobID := "b" }, { jobID := "c" }]
  refine List.Pairwise.cons ?_ (List.Pairwise.cons ?_ (List.pairwise_singleton _ _))
  · intro j hj
    rcases List.mem_cons.mp hj with rfl | hj
    · exact hab
    · rw [List.mem_singleton.mp hj]
      exact hac
  · intro j hj
    rw [List.mem_singleton.mp hj]
    exact hbc

/-! ## JSON values

The wire content handled by `Message.UnmarshalJSON` and the dynamic
field maps of realtime documents are JSON; numbers are restricted to
integers (the claims never involve fractional literals). -/

/-- A JSON value. -/
inductive Json where
  | null
  | bool (b : Bool)
  | num (n : Int)
  | str (s : String)
  | arr (elems : List Json)
  | obj (fields : List (String × Json))

/-! ## `WaitUntilDone`: the blocking wait protocol (C4) -/

/-- A document carried by a realtime event, as type-switched by
`WaitUntilDone`: a `*couchdb.JSONDoc` or `*realtime.JSONDoc` (both with a
dynamic field map `M`), a `*Job`, or any other type. -/
inductive EventDoc where
  | couchJSON (m : List (String × Json))
  | realtimeJSON (m : List (String × Json))
  | jobDoc (j : Job)
  | otherDoc

/-- The state `WaitUntilDone` extracts from an observed event: it starts
from `Queued`, and for the JSONDoc cases reads `doc.M["state"].(string)` —
a missing or non-string field yields `State("")` via the failed type
assertion; for a `*Job` it reads `doc.State`; any other doc type leaves
the `Queued` default. -/
def docState (d : EventDoc) : State :=
  match d with
  | .couchJSON m =>
    match m.lookup "state" with
    | some (.str s) => s
    | _ => ""
  | .realtimeJSON m =>
    match m.lookup "state" with
    | some (.str s) => s
    | _ => ""
  | .jobDoc j => j.state
  | .otherDoc => Queued

/-- One `select` outcome in `WaitUntilDone`'s loop: either an event
received on the subscription channel or the firing of the
`time.After(10 * time.Minute)` timer.  Real time is not modelled; the
timer firing is an explicit step in the observed sequence. -/
inductive WaitStep where
  | event (d : EventDoc)
  | timeout

/-- The `10 * time.Minute` bound of `WaitUntilDone`, in minutes. -/
def waitTimeoutMinutes : Nat := 10

/-- The `for { select … } }` loop of `WaitUntilDone`, over the sequence of
observed steps: a `Done` event returns `nil`, an `Errored` event returns
the konnector error, any other event loops, and the timer firing returns
`nil`.  `none` means the sequence was exhausted with the call still
blocked.  (The `sub.Watch` subscription and its error path are outside
this model.) -/
def WaitUntilDone : List WaitStep → Option (Except String Unit)
  | [] => none
  | .event d :: rest =>
    if docState d = Done then some (.ok ())
    else if docState d = Errored then
      some (.error "The konnector failed on account deletion")
    else WaitUntilDone rest
  | .timeout :: _ => some (.ok ())

/-- A step that does not end the wait: an observed event whose state is
neither `Done` nor `Errored` (and not the timer firing). -/
def nonTerminalStep : WaitStep → Prop
  | .event d => docState d ≠ Done ∧ docState d ≠ Errored
  | .timeout => False

/-- C4: after any prefix of non-terminal events, `WaitUntilDone` returns
nil when an observed event carries state `Done`, returns an error when an
observed event carries state `Errored`, and when the fixed 10-minute
timer fires without a terminal event it returns nil (no error) even
though the job never reached a terminal state. -/
theorem waitUntilDone_spec (pre : List WaitStep) (d : EventDoc)
    (rest : List WaitStep) (hpre : ∀ s ∈ pre, nonTerminalStep s) :
    waitTimeoutMinutes = 10 ∧
    WaitUntilDone (pre ++ [WaitStep.timeout]) = some (Except.ok ()) ∧
    (docState d = Done →
      WaitUntilDone (pre ++ WaitStep.event d :: rest) = some (Except.ok ())) ∧
    (docState d = Errored →
      WaitUntilDone (pre ++ WaitStep.event d :: rest) =
        some (Except.error "The konnector failed on account deletion")) := by
  induction pre with
  | nil =>
    refine ⟨rfl, rfl, ?_, ?_⟩
    · intro hd
      simp only [List.nil_append, WaitUntilDone, if_pos hd]
    · intro hd
      have hnd : docState d ≠ Done := by
        rw [hd]
        decide
      simp only [List.nil_append, WaitUntilDone, if_neg hnd, if_pos hd]
  | cons s pre ih =>
    have hs := hpre s (List.mem_cons_self s pre)
    have hrest : ∀ x ∈ pre, nonTerminalStep x :=
      fun x hx => hpre x (List.mem_cons_of_mem s hx)
    have ihh := ih hrest
    cases s with
    | timeout => exact hs.elim
    | event d2 =>
      obtain ⟨hd1, hd2⟩ := hs
      refine ⟨rfl, ?_, ?_, ?_⟩
      · simp only [List.cons_append, WaitUntilDone, if_neg hd1, if_neg hd2]
        exact ihh.2.1
      · intro hd
        simp only [List.cons_append, WaitUntilDone, if_neg hd1, if_neg hd2]
        exact ihh.2.2.1 hd
      · intro hd
        simp only [List.cons_append, WaitUntilDone, if_neg hd1, if_neg hd2]
        exact ihh.2.2.2 hd

/-- Witness for C4 at a concrete sequence: one non-terminal event, then a
`Done` job event (and, for the timeout part, the timer firing). -/
theorem waitUntilDone_spec_witness :
    waitTimeoutMinutes = 10 ∧
    WaitUntilDone ([WaitStep.event EventDoc.otherDoc] ++ [WaitStep.timeout]) =
      some (Except.ok ()) ∧
    (docState (EventDoc.jobDoc { state := "done" }) = Done →
      WaitUntilDone ([WaitStep.event EventDoc.otherDoc] ++
        WaitStep.event (EventDoc.jobDoc { state := "done" }) :: []) =
          some (Except.ok ())) ∧
    (docState (EventDoc.jobDoc { state := "done" }) = Errored →
      WaitUntilDone ([WaitStep.event EventDoc.otherDoc] ++
        WaitStep.event (EventDoc.jobDoc { state := "done" }) :: []) =
          some (Except.error "The konnector failed on account deletion")) :=
  waitUntilDone_spec [WaitStep.event EventDoc.otherDoc]
    (EventDoc.jobDoc { state := "done" }) []
    (by
      intro s hs
      rw [List.mem_singleton.mp hs]
      exact ⟨by decide, by decide⟩)

/-! ## `Message` wire-format decoding (C6)

`NewMessage` is `json.Marshal`; `Message.UnmarshalJSON` first tries to
decode the legacy `{Data, Type}` envelope and falls back to the current
plain form.  The model works at the level of JSON values: the wire bytes
of a well-formed payload are in bijection with the value they denote
(marshalling then parsing the outer document is the identity), so the
outer codec cancels and the envelope logic operates on the parsed value.
The *inner* `Data` bytes stay at byte level: they are base64-decoded by
the struct decoding of `[]byte` and then parsed as JSON, both modelled
against the documented behaviour of Go `encoding/json`/`encoding/base64`. -/

/-- The opening-brace character (code 123). -/
def lbrace : Char := Char.ofNat 123

/-- The closing-brace character (code 125). -/
def rbrace : Char := Char.ofNat 125

/-- JSON insignificant whitespace. -/
def isWsChar (c : Char) : Bool :=
  c = ' ' || c = '\t' || c = '\n' || c = '\r'

/-- Drop leading JSON whitespace. -/
def skipWs : List Char → List Char
  | [] => []
  | c :: rest => if isWsChar c then skipWs rest else c :: rest

/-- Longest digit prefix and the remainder. -/
def takeDigits : List Char → List Char × List Char
  | [] => ([], [])
  | c :: rest =>
    if c.isDigit then
      let p := takeDigits rest
      (c :: p.1, p.2)
    else ([], c :: rest)

/-- Decimal value of a digit list. -/
def digitsToNat (ds : List Char) : Nat :=
  ds.foldl (fun acc c => acc * 10 + (c.toNat - 48)) 0

/-- Body of a JSON string literal after the opening quote; returns the
decoded characters and the input after the closing quote. -/
def parseStrChars : List Char → Option (List Char × List Char)
  | [] => none
  | '\\' :: e :: rest =>
    (match e with
      | '"' => some '"'
      | '\\' => some '\\'
      | '/' => some '/'
      | 'n' => some '\n'
      | 't' => some '\t'
      | 'r' => some '\r'
      | _ => none).bind fun c =>
        (parseStrChars rest).map fun (p : List Char × List Char) => (c :: p.1, p.2)
  | c :: rest =>
    if c = '"' then some ([], rest)
    else (parseStrChars rest).map fun (p : List Char × List Char) => (c :: p.1, p.2)

mutual

/-- Recursive-descent JSON value parser (fuel bounds the nesting).
Numbers are integer literals. -/
def parseVal : Nat → List Char → Option (Json × List Char)
  | 0, _ => none
  | fuel + 1, input =>
    match skipWs input with
    | 'n' :: 'u' :: 'l' :: 'l' :: rest => some (.null, rest)
    | 't' :: 'r' :: 'u' :: 'e' :: rest => some (.bool true, rest)
    | 'f' :: 'a' :: 'l' :: 's' :: 'e' :: rest => some (.bool false, rest)
    | '"' :: rest => (parseStrChars rest).map fun p => (.str (String.mk p.1), p.2)
    | '[' :: rest =>
      (match skipWs rest with
        | ']' :: r2 => some (([] : List Json), r2)
        | r2 => parseElems fuel r2).map fun (p : List Json × List Char) => (.arr p.1, p.2)
    | '-' :: rest =>
      let p := takeDigits rest
      if p.1.isEmpty then none else some (.num (-(digitsToNat p.1 : Int)), p.2)
    | c :: rest =>
      if c = lbrace then
        (match skipWs rest with
          | c2 :: r2 =>
            if c2 = rbrace then some (([] : List (String × Json)), r2)
            else parseFields fuel (c2 :: r2)
          | [] => none).map fun (p : List (String × Json) × List Char) => (.obj p.1, p.2)
      else if c.isDigit then
        let p := takeDigits (c :: rest)
        some (.num (digitsToNat p.1), p.2)
      else none
    | [] => none

/-- Non-empty array elements up to the closing bracket. -/
def parseElems : Nat → List Char → Option (List Json × List Char)
  | 0, _ => none
  | fuel + 1, input =>
    (parseVal fuel input).bind fun p =>
      match skipWs p.2 with
      | ',' :: r2 => (parseElems fuel r2).map fun q => (p.1 :: q.1, q.2)
      | ']' :: r2 => some ([p.1], r2)
      | _ => none

/-- Non-empty object fields up to the closing brace. -/
def parseFields : Nat → List Char → Option (List (String × Json) × List Char)
  | 0, _ => none
  | fuel + 1, input =>
    match skipWs input with
    | '"' :: rest =>
      (parseStrChars rest).bind fun pk =>
        match skipWs pk.2 with
        | ':' :: r2 =>
          (parseVal fuel r2).bind fun pv =>
            match skipWs pv.2 with
            | ',' :: r4 =>
              (parseFields fuel r4).map fun q => ((String.mk pk.1, pv.1) :: q.1, q.2)
            | c :: r4 =>
              if c = rbrace then some ([(String.mk pk.1, pv.1)], r4) else none
            | [] => none
        | _ => none
    | _ => none

end

/-- `json.Unmarshal` of a whole byte string into a JSON value: one value,
possibly surrounded by whitespace, nothing else. -/
def parseJsonStr (s : String) : Option Json :=
  match parseVal (s.length + 1) s.data with
  | some (v, rest) => if (skipWs rest).isEmpty then some v else none
  | none => none

/-- Value of one standard-base64 alphabet character. -/
def b64DecChar (c : Char) : Option Nat :=
  if 'A' ≤ c ∧ c ≤ 'Z' then some (c.toNat - 65)
  else if 'a' ≤ c ∧ c ≤ 'z' then some (c.toNat - 97 + 26)
  else if '0' ≤ c ∧ c ≤ '9' then some (c.toNat - 48 + 52)
  else if c = '+' then some 62
  else if c = '/' then some 63
  else none

/-- Standard (padded) base64 decoding of 4-character groups into bytes,
as `encoding/base64.StdEncoding` used by `encoding/json` for `[]byte`. -/
def b64DecodeGroups : List Char → Option (List Nat)
  | [] => some []
  | c1 :: c2 :: c3 :: c4 :: rest =>
    (b64DecChar c1).bind fun n1 =>
    (b64DecChar c2).bind fun n2 =>
    if c3 = '=' then
      if c4 = '=' ∧ rest = [] then some [n1 * 4 + n2 / 16] else none
    else
      (b64DecChar c3).bind fun n3 =>
      if c4 = '=' then
        if rest = [] then some [n1 * 4 + n2 / 16, n2 % 16 * 16 + n3 / 4] else none
      else
        (b64DecChar c4).bind fun n4 =>
        (b64DecodeGroups rest).map fun bs =>
          (n1 * 4 + n2 / 16) :: (n2 % 16 * 16 + n3 / 4) :: (n3 % 4 * 64 + n4) :: bs
  | _ => none

/-- Base64-decode a string to bytes (bytes are represented as the string
of their character codes). -/
def b64Decode (s : String) : Option String :=
  (b64DecodeGroups s.data).map fun bs => String.mk (bs.map Char.ofNat)

/-- Go `encoding/json` field-name matching: case-insensitive. -/
def ciEq (a b : String) : Bool :=
  (a.data.map Char.toLower) == (b.data.map Char.toLower)

/-- The anonymous struct `{ Data []byte; Type string }` that
`Message.UnmarshalJSON` first tries to decode into. -/
structure MMStruct where
  data : String := ""
  type_ : String := ""

/-- Assignment of one JSON object field into the `{Data, Type}` struct,
per Go `encoding/json`: keys are matched to struct fields
case-insensitively, in order (a later key overwrites), a JSON `null` is a
no-op, and a type mismatch — including invalid base64 for the `[]byte`
field — fails the whole `Unmarshal`. -/
def assignMMField (mm : MMStruct) : String × Json → Option MMStruct
  | (k, v) =>
    if ciEq k "Data" then
      match v with
      | .str s => (b64Decode s).map fun bytes => { mm with data := bytes }
      | .null => some mm
      | _ => none
    else if ciEq k "Type" then
      match v with
      | .str s => some { mm with type_ := s }
      | .null => some mm
      | _ => none
    else some mm

/-- `json.Unmarshal(data, &mm)` for the envelope struct, at value level:
succeeds on an object (or `null`, which leaves the struct zeroed), fails
on any other JSON kind. -/
def structDecodeMM (data : Json) : Option MMStruct :=
  match data with
  | .null => some {}
  | .obj fields => fields.foldlM assignMMField {}
  | _ => none

/-- `NewMessage` returns a json encoded data: `json.Marshal`, which at
the JSON-value level is the identity on the denoted value. -/
def NewMessage (v : Json) : Json := v

/-- `Message.UnmarshalJSON`, at the JSON-value level (`data` is the value
denoted by the wire bytes): when the envelope struct decodes and
`mm.Type == "json"`, the message becomes the value parsed from the inner
`Data` bytes (an unparsable `Data` is an error, `none`); otherwise the
plain path stores the value itself. -/
def unmarshalMessage (data : Json) : Option Json :=
  match structDecodeMM data with
  | some mm => if mm.type_ == "json" then parseJsonStr mm.data else some data
  | none => some data

/-- A value whose wire form triggers the legacy-envelope path. -/
def isLegacyEnvelope (data : Json) : Bool :=
  match structDecodeMM data with
  | some mm => mm.type_ == "json"
  | none => false

/-- C6 counterexample: the JSON value `{"Data": "MTIz", "Type": "json"}`
("MTIz" is base64 of "123") is marshalled by `NewMessage` to its own wire
form, which decoding mistakes for a legacy envelope: the round trip
yields `123`, not the original value. -/
theorem message_roundtrip_cex :
    unmarshalMessage (NewMessage
        (Json.obj [("Data", Json.str "MTIz"), ("Type", Json.str "json")])) =
      some (Json.num 123) ∧
    unmarshalMessage (NewMessage
        (Json.obj [("Data", Json.str "MTIz"), ("Type", Json.str "json")])) ≠
      some (Json.obj [("Data", Json.str "MTIz"), ("Type", Json.str "json")]) := by
  refine ⟨rfl, ?_⟩
  intro h
  rw [show unmarshalMessage (NewMessage
      (Json.obj [("Data", Json.str "MTIz"), ("Type", Json.str "json")])) =
    some (Json.num 123) from rfl] at h
  exact Json.noConfusion (Option.some.inj h)

/-- C6 (amended): encoding a JSON value with `NewMessage` and then
decoding yields back an equal value for every value *whose wire form is
not a legacy envelope* (an object decodable into `{Data, Type}` with
`Type = "json"`) — this covers every current plain-JSON form; and
decoding a legacy envelope `{Data: d, Type: "json"}` yields the value
obtained by decoding its inner `Data` bytes directly. -/
theorem message_decode_spec :
    (∀ v : Json, isLegacyEnvelope v = false →
      unmarshalMessage (NewMessage v) = some v) ∧
    (∀ (s d : String) (v : Json), b64Decode s = some d → parseJsonStr d = some v →
      unmarshalMessage (Json.obj [("Data", Json.str s), ("Type", Json.str "json")]) =
        some v) := by
  constructor
  · intro v hv
    rw [NewMessage, unmarshalMessage]
    cases h : structDecodeMM v with
    | none => rfl
    | some mm =>
      simp only [isLegacyEnvelope, h] at hv
      simp only [hv, Bool.false_eq_true, if_false]
  · intro s d v hb hp
    have hDD : ciEq "Data" "Data" = true := rfl
    have hTD : ciEq "Type" "Data" = false := rfl
    have hTT : ciEq "Type" "Type" = true := rfl
    have hsd : structDecodeMM
        (Json.obj [("Data", Json.str s), ("Type", Json.str "json")]) =
        some { data := d, type_ := "json" } := by
      simp only [structDecodeMM, List.foldlM_cons, List.foldlM_nil, assignMMField,
        hDD, hTD, hTT, Bool.false_eq_true, if_true, if_false, hb]
      rfl
    rw [unmarshalMessage, hsd]
    simp only [beq_self_eq_true, if_true]
    exact hp

/-- Witness for C6 at concrete inputs: a plain value round-trips, and the
legacy envelope of "123" decodes to `123`. -/
theorem message_decode_spec_witness :
    unmarshalMessage (NewMessage (Json.num 7)) = some (Json.num 7) ∧
    unmarshalMessage
        (Json.obj [("Data", Json.str "MTIz"), ("Type", Json.str "json")]) =
      some (Json.num 123) :=
  ⟨message_decode_spec.1 (Json.num 7) rfl,
   message_decode_spec.2 "MTIz" "123" (Json.num 123) rfl rfl⟩

/-! ## `Job.Clone`: deep-copy and aliasing (C9)

Aliasing of Go pointers and slices is modelled with an explicit heap:
byte slices and `*JobOptions` allocations live in the heap, and a `Job`
holds references into it.  Two fields share mutable storage exactly when
they hold the same reference. -/

/-- The allocation state: byte arrays (for `Message`/`Event`/`Payload`
backing stores) and `JobOptions` allocations. -/
structure Heap where
  blobs : List (List Nat) := []
  opts : List JobOptions := []

/-- Read a byte array. -/
def Heap.readBlob (h : Heap) (r : Nat) : List Nat := h.blobs.getD r []

/-- Read a `JobOptions` allocation. -/
def Heap.readOpts (h : Heap) (r : Nat) : JobOptions := h.opts.getD r {}

/-- Allocate a fresh byte array (`make([]byte, …)` plus the `copy`). -/
def Heap.allocBlob (h : Heap) (b : List Nat) : Heap × Nat :=
  ({ h with blobs := h.blobs ++ [b] }, h.blobs.length)

/-- Allocate a fresh `JobOptions` (`tmp := *j.Options; &tmp`). -/
def Heap.allocOpts (h : Heap) (o : JobOptions) : Heap × Nat :=
  ({ h with opts := h.opts ++ [o] }, h.opts.length)

/-- A `Job` as laid out in memory for the aliasing analysis: the scalar
fields by value, and the four heap-allocated fields (`Options` pointer,
`Message`/`Event`/`Payload` slices) as optional references (`none` = Go
`nil`). -/
structure JobRef where
  jobID : String := ""
  jobRev : String := ""
  domain : String := ""
  prefix_ : String := ""
  workerType : String := ""
  triggerID : String := ""
  manual : Bool := false
  debounced : Bool := false
  state : State := ""
  queuedAt : Time := 0
  startedAt : Time := 0
  finishedAt : Time := 0
  error : String := ""
  forwardLogs : Bool := false
  options : Option Nat := none
  message : Option Nat := none
  event : Option Nat := none
  payload : Option Nat := none

/-- The value denoted by a blob reference. -/
def blobVal (h : Heap) (r? : Option Nat) : Option (List Nat) :=
  r?.map h.readBlob

/-- The value denoted by an options reference. -/
def optsVal (h : Heap) (r? : Option Nat) : Option JobOptions :=
  r?.map h.readOpts

/-- One `if j.X != nil { tmp := j.X; target = make([]byte, len(tmp));
copy(target, tmp) }` block: allocate a fresh array holding a copy of the
referenced bytes, returning the new heap and the new reference. -/
def cloneBlobStep (h : Heap) (r? : Option Nat) : Heap × Option Nat :=
  match r? with
  | some r =>
    let p := h.allocBlob (h.readBlob r)
    (p.1, some p.2)
  | none => (h, none)

/-- The `if j.Options != nil { tmp := *j.Options; cloned.Options = &tmp }`
block. -/
def cloneOptsStep (h : Heap) (r? : Option Nat) : Heap × Option Nat :=
  match r? with
  | some r =>
    let p := h.allocOpts (h.readOpts r)
    (p.1, some p.2)
  | none => (h, none)

/-- `Job.Clone` over the heap model, following the source statement by
statement: `cloned := *j` copies every field including the references;
the `Options` copy is assigned to `cloned.Options`; but the `Message`,
`Event` and `Payload` copies are assigned to the *receiver* —
`j.Message = make([]byte, len(tmp)); copy(j.Message[:], tmp)` — leaving
`cloned` holding the original arrays.  Returns
(final heap, receiver after the call, returned clone). -/
def Clone (h : Heap) (j : JobRef) : Heap × JobRef × JobRef :=
  let cloned := j
  let p1 := cloneOptsStep h j.options
  let cloned := { cloned with options := p1.2 }
  let p2 := cloneBlobStep p1.1 j.message
  let j := { j with message := p2.2 }
  let p3 := cloneBlobStep p2.1 j.event
  let j := { j with event := p3.2 }
  let p4 := cloneBlobStep p3.1 j.payload
  let j := { j with payload := p4.2 }
  (p4.1, j, cloned)

theorem cloneOptsStep_fst_blobs (h : Heap) (r? : Option Nat) :
    (cloneOptsStep h r?).1.blobs = h.blobs := by
  cases r? <;> rfl

theorem cloneOptsStep_fst_opts_ext (h : Heap) (r? : Option Nat) :
    ∃ ext, (cloneOptsStep h r?).1.opts = h.opts ++ ext := by
  cases r? with
  | none => exact ⟨[], by simp [cloneOptsStep]⟩
  | some r => exact ⟨[h.readOpts r], rfl⟩

theorem cloneBlobStep_fst_opts (h : Heap) (r? : Option Nat) :
    (cloneBlobStep h r?).1.opts = h.opts := by
  cases r? <;> rfl

theorem cloneBlobStep_fst_blobs_ext (h : Heap) (r? : Option Nat) :
    ∃ ext, (cloneBlobStep h r?).1.blobs = h.blobs ++ ext := by
  cases r? with
  | none => exact ⟨[], by simp [cloneBlobStep]⟩
  | some r => exact ⟨[h.readBlob r], rfl⟩

/-- Reads below the old length are unaffected by heap growth. -/
theorem readBlob_of_grow (h h2 : Heap) (ext : List (List Nat))
    (he : h2.blobs = h.blobs ++ ext) (r : Nat) (hr : r < h.blobs.length) :
    h2.readBlob r = h.readBlob r := by
  rw [Heap.readBlob, Heap.readBlob, he, List.getD_append _ _ _ _ hr]

/-- Reads below the old length are unaffected by heap growth. -/
theorem readOpts_of_grow (h h2 : Heap) (ext : List JobOptions)
    (he : h2.opts = h.opts ++ ext) (r : Nat) (hr : r < h.opts.length) :
    h2.readOpts r = h.readOpts r := by
  rw [Heap.readOpts, Heap.readOpts, he, List.getD_append _ _ _ _ hr]

/-- The heap after the `Options` block of `Clone`. -/
def cloneH1 (h : Heap) (j : JobRef) : Heap := (cloneOptsStep h j.options).1

/-- The `Message` block of `Clone` (new heap and reference). -/
def cloneP2 (h : Heap) (j : JobRef) : Heap × Option Nat :=
  cloneBlobStep (cloneH1 h j) j.message

/-- The heap after the `Message` block of `Clone`. -/
def cloneH2 (h : Heap) (j : JobRef) : Heap := (cloneP2 h j).1

/-- The `Event` block of `Clone`. -/
def cloneP3 (h : Heap) (j : JobRef) : Heap × Option Nat :=
  cloneBlobStep (cloneH2 h j) j.event

/-- The heap after the `Event` block of `Clone`. -/
def cloneH3 (h : Heap) (j : JobRef) : Heap := (cloneP3 h j).1

/-- The `Payload` block of `Clone`. -/
def cloneP4 (h : Heap) (j : JobRef) : Heap × Option Nat :=
  cloneBlobStep (cloneH3 h j) j.payload

/-- The final heap of `Clone`. -/
def cloneH4 (h : Heap) (j : JobRef) : Heap := (cloneP4 h j).1

theorem clone_fst (h : Heap) (j : JobRef) : (Clone h j).1 = cloneH4 h j := rfl

theorem clone_receiver (h : Heap) (j : JobRef) :
    (Clone h j).2.1 =
      { j with message := (cloneP2 h j).2,
               event := (cloneP3 h j).2, payload := (cloneP4 h j).2 } := rfl

theorem clone_returned (h : Heap) (j : JobRef) :
    (Clone h j).2.2 = { j with options := (cloneOptsStep h j.options).2 } := rfl

/-- C9: `Clone` returns a job whose every field equals the original's in
value (scalars are copied; the four heap-allocated fields denote the same
values), and after the call the returned clone and the (possibly
re-allocated) receiver share no reference for `Options`, `Message`,
`Event` or `Payload` — the deep-copy requirement.  Hypotheses: the
original's references are live in the heap. -/
theorem clone_spec (h : Heap) (j : JobRef)
    (hvo : ∀ r, j.options = some r → r < h.opts.length)
    (hvm : ∀ r, j.message = some r → r < h.blobs.length)
    (hve : ∀ r, j.event = some r → r < h.blobs.length)
    (hvp : ∀ r, j.payload = some r → r < h.blobs.length) :
    (Clone h j).2.2 = { j with options := (Clone h j).2.2.options } ∧
    optsVal (Clone h j).1 (Clone h j).2.2.options = optsVal h j.options ∧
    blobVal (Clone h j).1 (Clone h j).2.2.message = blobVal h j.message ∧
    blobVal (Clone h j).1 (Clone h j).2.2.event = blobVal h j.event ∧
    blobVal (Clone h j).1 (Clone h j).2.2.payload = blobVal h j.payload ∧
    (Clone h j).2.1 =
      { j with message := (Clone h j).2.1.message,
               event := (Clone h j).2.1.event,
               payload := (Clone h j).2.1.payload } ∧
    optsVal (Clone h j).1 (Clone h j).2.1.options = optsVal h j.options ∧
    blobVal (Clone h j).1 (Clone h j).2.1.message = blobVal h j.message ∧
    blobVal (Clone h j).1 (Clone h j).2.1.event = blobVal h j.event ∧
    blobVal (Clone h j).1 (Clone h j).2.1.payload = blobVal h j.payload ∧
    (∀ r r2, (Clone h j).2.1.options = some r →
      (Clone h j).2.2.options = some r2 → r ≠ r2) ∧
    (∀ r r2, (Clone h j).2.1.message = some r →
      (Clone h j).2.2.message = some r2 → r ≠ r2) ∧
    (∀ r r2, (Clone h j).2.1.event = some r →
      (Clone h j).2.2.event = some r2 → r ≠ r2) ∧
    (∀ r r2, (Clone h j).2.1.payload = some r →
      (Clone h j).2.2.payload = some r2 → r ≠ r2) := by
  have hb1 : (cloneH1 h j).blobs = h.blobs := cloneOptsStep_fst_blobs h j.options
  obtain ⟨x1, ho1⟩ : ∃ x, (cloneH1 h j).opts = h.opts ++ x :=
    cloneOptsStep_fst_opts_ext h j.options
  obtain ⟨x2, hb2⟩ : ∃ x, (cloneH2 h j).blobs = (cloneH1 h j).blobs ++ x :=
    cloneBlobStep_fst_blobs_ext (cloneH1 h j) j.message
  obtain ⟨x3, hb3⟩ : ∃ x, (cloneH3 h j).blobs = (cloneH2 h j).blobs ++ x :=
    cloneBlobStep_fst_blobs_ext (cloneH2 h j) j.event
  obtain ⟨x4, hb4⟩ : ∃ x, (cloneH4 h j).blobs = (cloneH3 h j).blobs ++ x :=
    cloneBlobStep_fst_blobs_ext (cloneH3 h j) j.payload
  have ho2 : (cloneH2 h j).opts = (cloneH1 h j).opts :=
    cloneBlobStep_fst_opts (cloneH1 h j) j.message
  have ho3 : (cloneH3 h j).opts = (cloneH2 h j).opts :=
    cloneBlobStep_fst_opts (cloneH2 h j) j.event
  have ho4 : (cloneH4 h j).opts = (cloneH3 h j).opts :=
    cloneBlobStep_fst_opts (cloneH3 h j) j.payload
  have hbh : (cloneH4 h j).blobs = h.blobs ++ (x2 ++ x3 ++ x4) := by
    rw [hb4, hb3, hb2, hb1]
    simp [List.append_assoc]
  have hbh2 : (cloneH4 h j).blobs = (cloneH2 h j).blobs ++ (x3 ++ x4) := by
    rw [hb4, hb3, List.append_assoc]
  have hb2h : (cloneH2 h j).blobs = h.blobs ++ x2 := by rw [hb2, hb1]
  have hb3h : (cloneH3 h j).blobs = h.blobs ++ (x2 ++ x3) := by
    rw [hb3, hb2, hb1, List.append_assoc]
  have hoh : (cloneH4 h j).opts = h.opts ++ x1 := by rw [ho4, ho3, ho2, ho1]
  have hlen1 : (cloneH1 h j).blobs.length = h.blobs.length := by rw [hb1]
  have hlen2 : h.blobs.length ≤ (cloneH2 h j).blobs.length := by simp [hb2h]
  have hlen3 : h.blobs.length ≤ (cloneH3 h j).blobs.length := by simp [hb3h]
  rw [clone_fst, clone_receiver, clone_returned]
  refine ⟨rfl, ?_, ?_, ?_, ?_, rfl, ?_, ?_, ?_, ?_, ?_, ?_, ?_, ?_⟩
  · -- clone's Options denotes the original value
    show optsVal (cloneH4 h j) (cloneOptsStep h j.options).2 = optsVal h j.options
    cases hjo : j.options with
    | none => rfl
    | some ro =>
      have hro := hvo ro hjo
      have h2 : (cloneOptsStep h (some ro)).2 = some h.opts.length := rfl
      have h3 : (cloneH1 h j).opts = h.opts ++ [h.readOpts ro] := by
        rw [cloneH1, hjo]; rfl
      have h4 : (cloneH4 h j).opts = h.opts ++ [h.readOpts ro] := by
        rw [ho4, ho3, ho2, h3]
      rw [h2]
      simp only [optsVal, Option.map_some']
      simp only [Heap.readOpts]
      rw [h4]
      simp [List.getD_append_right, Heap.readOpts]
  · -- clone's Message denotes the original value
    show blobVal (cloneH4 h j) j.message = blobVal h j.message
    cases hjm : j.message with
    | none => rfl
    | some rm =>
      have hrm := hvm rm hjm
      simp only [blobVal, Option.map_some']
      rw [readBlob_of_grow h (cloneH4 h j) _ hbh rm hrm]
  · -- clone's Event denotes the original value
    show blobVal (cloneH4 h j) j.event = blobVal h j.event
    cases hje : j.event with
    | none => rfl
    | some re =>
      have hre := hve re hje
      simp only [blobVal, Option.map_some']
      rw [readBlob_of_grow h (cloneH4 h j) _ hbh re hre]
  · -- clone's Payload denotes the original value
    show blobVal (cloneH4 h j) j.payload = blobVal h j.payload
    cases hjp : j.payload with
    | none => rfl
    | some rp =>
      have hrp := hvp rp hjp
      simp only [blobVal, Option.map_some']
      rw [readBlob_of_grow h (cloneH4 h j) _ hbh rp hrp]
  · -- receiver's Options (unchanged) denotes the original value
    show optsVal (cloneH4 h j) j.options = optsVal h j.options
    cases hjo : j.options with
    | none => rfl
    | some ro =>
      have hro := hvo ro hjo
      simp only [optsVal, Option.map_some']
      rw [readOpts_of_grow h (cloneH4 h j) _ hoh ro hro]
  · -- receiver's re-allocated Message denotes the original value
    show blobVal (cloneH4 h j) (cloneP2 h j).2 = blobVal h j.message
    cases hjm : j.message with
    | none =>
      have h2 : (cloneP2 h j).2 = none := by rw [cloneP2, hjm]; rfl
      rw [h2]; rfl
    | some rm =>
      have hrm := hvm rm hjm
      have h2 : (cloneP2 h j).2 = some (cloneH1 h j).blobs.length := by
        rw [cloneP2, hjm]; rfl
      have h3 : (cloneH2 h j).blobs =
          (cloneH1 h j).blobs ++ [(cloneH1 h j).readBlob rm] := by
        rw [cloneH2, cloneP2, hjm]; rfl
      have hread1 : (cloneH1 h j).readBlob rm = h.readBlob rm := by
        rw [Heap.readBlob, Heap.readBlob, hb1]
      have hidx : (cloneH1 h j).blobs.length < (cloneH2 h j).blobs.length := by
        rw [h3]; simp
      have e4 : (cloneH4 h j).readBlob (cloneH1 h j).blobs.length =
          (cloneH2 h j).readBlob (cloneH1 h j).blobs.length :=
        readBlob_of_grow (cloneH2 h j) (cloneH4 h j) _ hbh2 _ hidx
      have e5 : (cloneH2 h j).readBlob (cloneH1 h j).blobs.length =
          (cloneH1 h j).readBlob rm := by
        simp only [Heap.readBlob]
        rw [h3]
        simp [List.getD_append_right, Heap.readBlob]
      rw [h2]
      simp only [blobVal, Option.map_some']
      rw [e4, e5, hread1]
  · -- receiver's re-allocated Event denotes the original value
    show blobVal (cloneH4 h j) (cloneP3 h j).2 = blobVal h j.event
    cases hje : j.event with
    | none =>
      have h2 : (cloneP3 h j).2 = none := by rw [cloneP3, hje]; rfl
      rw [h2]; rfl
    | some re =>
      have hre := hve re hje
      have h2 : (cloneP3 h j).2 = some (cloneH2 h j).blobs.length := by
        rw [cloneP3, hje]; rfl
      have h3 : (cloneH3 h j).blobs =
          (cloneH2 h j).blobs ++ [(cloneH2 h j).readBlob re] := by
        rw [cloneH3, cloneP3, hje]; rfl
      have hread2 : (cloneH2 h j).readBlob re = h.readBlob re :=
        readBlob_of_grow h (cloneH2 h j) _ hb2h re hre
      have hidx : (cloneH2 h j).blobs.length < (cloneH3 h j).blobs.length := by
        rw [h3]; simp
      have e4 : (cloneH4 h j).readBlob (cloneH2 h j).blobs.length =
          (cloneH3 h j).readBlob (cloneH2 h j).blobs.length :=
        readBlob_of_grow (cloneH3 h j) (cloneH4 h j) _ hb4 _ hidx
      have e5 : (cloneH3 h j).readBlob (cloneH2 h j).blobs.length =
          (cloneH2 h j).readBlob re := by
        simp only [Heap.readBlob]
        rw [h3]
        simp [List.getD_append_right, Heap.readBlob]
      rw [h2]
      simp only [blobVal, Option.map_some']
      rw [e4, e5, hread2]
  · -- receiver's re-allocated Payload denotes the original value
    show blobVal (cloneH4 h j) (cloneP4 h j).2 = blobVal h j.payload
    cases hjp : j.payload with
    | none =>
      have h2 : (cloneP4 h j).2 = none := by rw [cloneP4, hjp]; rfl
      rw [h2]; rfl
    | some rp =>
      have hrp := hvp rp hjp
      have h2 : (cloneP4 h j).2 = some (cloneH3 h j).blobs.length := by
        rw [cloneP4, hjp]; rfl
      have h3 : (cloneH4 h j).blobs =
          (cloneH3 h j).blobs ++ [(cloneH3 h j).readBlob rp] := by
        rw [cloneH4, cloneP4, hjp]; rfl
      have hread3 : (cloneH3 h j).readBlob rp = h.readBlob rp :=
        readBlob_of_grow h (cloneH3 h j) _ hb3h rp hrp
      have e5 : (cloneH4 h j).readBlob (cloneH3 h j).blobs.length =
          (cloneH3 h j).readBlob rp := by
        simp only [Heap.readBlob]
        rw [h3]
        simp [List.getD_append_right, Heap.readBlob]
      rw [h2]
      simp only [blobVal, Option.map_some']
      rw [e5, hread3]
  · -- no sharing on Options
    intro r r2 hr hr2
    replace hr : j.options = some r := hr
    replace hr2 : (cloneOptsStep h j.options).2 = some r2 := hr2
    have hro := hvo r hr
    rw [hr] at hr2
    have : r2 = h.opts.length := (Option.some.inj hr2).symm
    omega
  · -- no sharing on Message
    intro r r2 hr hr2
    replace hr : (cloneP2 h j).2 = some r := hr
    replace hr2 : j.message = some r2 := hr2
    have hrm := hvm r2 hr2
    rw [cloneP2, hr2] at hr
    have : r = (cloneH1 h j).blobs.length := (Option.some.inj hr).symm
    rw [hlen1] at this
    omega
  · -- no sharing on Event
    intro r r2 hr hr2
    replace hr : (cloneP3 h j).2 = some r := hr
    replace hr2 : j.event = some r2 := hr2
    have hre := hve r2 hr2
    rw [cloneP3, hr2] at hr
    have : r = (cloneH2 h j).blobs.length := (Option.some.inj hr).symm
    omega
  · -- no sharing on Payload
    intro r r2 hr hr2
    replace hr : (cloneP4 h j).2 = some r := hr
    replace hr2 : j.payload = some r2 := hr2
    have hrp := hvp r2 hr2
    rw [cloneP4, hr2] at hr
    have : r = (cloneH3 h j).blobs.length := (Option.some.inj hr).symm
    omega

/-- A concrete heap for the C9 witness. -/
def sampleHeap : Heap :=
  { blobs := [[1], [2, 3], [4]], opts := [{ maxExecCount := 5, timeout := 9 }] }

/-- A concrete job whose four heap fields are all live in `sampleHeap`. -/
def sampleJobRef : JobRef :=
  { jobID := "j1", options := some 0, message := some 0, event := some 1,
    payload := some 2 }

/-- Witness for C9 at the concrete heap and job. -/
theorem clone_spec_witness :
    (Clone sampleHeap sampleJobRef).2.2 =
      { sampleJobRef with options := (Clone sampleHeap sampleJobRef).2.2.options } ∧
    optsVal (Clone sampleHeap sampleJobRef).1 (Clone sampleHeap sampleJobRef).2.2.options =
      optsVal sampleHeap sampleJobRef.options ∧
    blobVal (Clone sampleHeap sampleJobRef).1 (Clone sampleHeap sampleJobRef).2.2.message =
      blobVal sampleHeap sampleJobRef.message ∧
    blobVal (Clone sampleHeap sampleJobRef).1 (Clone sampleHeap sampleJobRef).2.2.event =
      blobVal sampleHeap sampleJobRef.event ∧
    blobVal (Clone sampleHeap sampleJobRef).1 (Clone sampleHeap sampleJobRef).2.2.payload =
      blobVal sampleHeap sampleJobRef.payload ∧
    (Clone sampleHeap sampleJobRef).2.1 =
      { sampleJobRef with message := (Clone sampleHeap sampleJobRef).2.1.message,
                          event := (Clone sampleHeap sampleJobRef).2.1.event,
                          payload := (Clone sampleHeap sampleJobRef).2.1.payload } ∧
    optsVal (Clone sampleHeap sampleJobRef).1 (Clone sampleHeap sampleJobRef).2.1.options =
      optsVal sampleHeap sampleJobRef.options ∧
    blobVal (Clone sampleHeap sampleJobRef).1 (Clone sampleHeap sampleJobRef).2.1.message =
      blobVal sampleHeap sampleJobRef.message ∧
    blobVal (Clone sampleHeap sampleJobRef).1 (Clone sampleHeap sampleJobRef).2.1.event =
      blobVal sampleHeap sampleJobRef.event ∧
    blobVal (Clone sampleHeap sampleJobRef).1 (Clone sampleHeap sampleJobRef).2.1.payload =
      blobVal sampleHeap sampleJobRef.payload ∧
    (∀ r r2, (Clone sampleHeap sampleJobRef).2.1.options = some r →
      (Clone sampleHeap sampleJobRef).2.2.options = some r2 → r ≠ r2) ∧
    (∀ r r2, (Clone sampleHeap sampleJobRef).2.1.message = some r →
      (Clone sampleHeap sampleJobRef).2.2.message = some r2 → r ≠ r2) ∧
    (∀ r r2, (Clone sampleHeap sampleJobRef).2.1.event = some r →
      (Clone sampleHeap sampleJobRef).2.2.event = some r2 → r ≠ r2) ∧
    (∀ r r2, (Clone sampleHeap sampleJobRef).2.1.payload = some r →
      (Clone sampleHeap sampleJobRef).2.2.payload = some r2 → r ≠ r2) :=
  clone_spec sampleHeap sampleJobRef
    (by intro r hr; simp [sampleJobRef] at hr; simp [sampleHeap]; omega)
    (by intro r hr; simp [sampleJobRef] at hr; simp [sampleHeap]; omega)
    (by intro r hr; simp [sampleJobRef] at hr; simp [sampleHeap]; omega)
    (by intro r hr; simp [sampleJobRef] at hr; simp [sampleHeap]; omega)

end Cozy
